import Mathlib

/-!
Verification of karrick/goconf (`goconf.go`): an INI-style configuration
reader with a cached, section-oriented lookup facade.

Strings are modelled as lists of Unicode scalar values (`List Char`), a
configuration file as the list of its lines (Go reads the file through
`bufio.Scanner`, which yields the file's lines without their terminators).
Go maps are modelled as association lists with overwrite-on-insert
semantics; lookup order in an association list is an artifact of the
model, all statements about map contents go through `lookupA`.

The cache layer (`congomap.Congomap`, an external dependency of this
repository) is not part of the source; its behaviour is modelled from the
specification (see `Congomap` and `loadStore` below).
-/

/-- A Go string, as a list of runes. -/
abbrev Str := List Char

/-- The errors the program can produce.  In Go these are `error` values built
with `fmt.Errorf`; each constructor records the format string's payload.
`closed` is the error the cache returns after `Close` (spec: ClosedError). -/
inductive GoErr where
  /-- Go: `fmt.Errorf("invalid config line: [%s]", line)` -/
  | invalidLine (line : Str)
  /-- Go: `fmt.Errorf("no such section: %q", section)` -/
  | noSuchSection (name : Str)
  /-- Go: `fmt.Errorf("ttl must be greater than 0")` -/
  | ttlNotPositive
  /-- Error returned by the cache for operations after `Close`. -/
  | closed
  deriving DecidableEq, Repr

/-- Go `unicode.IsSpace`, used by `strings.TrimSpace`: the Unicode
White_Space runes. -/
def goIsSpace (c : Char) : Bool :=
  c = ' ' || c = '\t' || c = '\n' || c = '\u000B' || c = '\u000C' || c = '\r' ||
  c = '\u0085' || c = '\u00A0' || c = '\u1680' ||
  (0x2000 ≤ c.toNat && c.toNat ≤ 0x200A) ||
  c = '\u2028' || c = '\u2029' || c = '\u202F' || c = '\u205F' || c = '\u3000'

/-- The character class `\s` of Go's regexp package (RE2), namely
`[\t\n\f\r ]`. -/
def reIsSpace (c : Char) : Bool :=
  c = '\t' || c = '\n' || c = '\u000C' || c = '\r' || c = ' '

/-- Go lines 108-110: `if comment := strings.IndexByte(line, ';'); comment >= 0
{ line = line[:comment] }` — everything from the first `;` on is discarded.
(`;` is ASCII, so the first `;` byte is the first `;` rune.) -/
def stripComment (line : Str) : Str :=
  line.takeWhile (fun c => c != ';')

/-- Go `strings.TrimSpace`: remove leading and trailing white space. -/
def trimSpace (s : Str) : Str :=
  ((s.dropWhile goIsSpace).reverse.dropWhile goIsSpace).reverse

/-- Go line 101: `sectionRe := regexp.MustCompile("^\\[([^\\]]+)\\]$")`.
The anchored regex matches exactly the strings `[body]` with `body`
nonempty and free of `]`; the capture is `body`.  Returns the capture
`md[1]` when the line matches. -/
def matchSection (s : Str) : Option Str :=
  match s with
  | [] => none
  | c :: rest =>
      if c = '[' ∧ rest.getLast? = some ']' ∧ rest.dropLast ≠ [] ∧
          rest.dropLast.contains ']' = false
      then some rest.dropLast else none

/-- Go line 102: `keyValRe := regexp.MustCompile("^([^=]+)\\s*=\\s*(.+)$")`.
With Go's leftmost-greedy submatch semantics: the greedy `[^=]+` absorbs
every character up to the first `=` (including any white space there, so
the intervening `\s*` always matches the empty string), then `\s*` after
the `=` greedily takes the white-space run, and `(.+)` takes the rest —
which must be nonempty and, since `.` does not match a newline, free of
`\n`.  When the remainder after the `=` is entirely `\s` characters the
second `\s*` backs off by exactly one character so that `.+` can match it.
Returns `(md[1], md[2])` when the line matches. -/
def matchKeyVal (s : Str) : Option (Str × Str) :=
  let key := s.takeWhile (fun c => c != '=')
  if key = [] then none
  else if key.length = s.length then none
  else
    let rest := s.drop (key.length + 1)
    let v := rest.dropWhile reIsSpace
    if v = [] then
      match rest.getLast? with
      | some c => if c = '\n' then none else some (key, [c])
      | none => none
    else if v.contains '\n' then none
    else some (key, v)

/-- Equality of `Except` results is decidable when both components are;
used to evaluate the model on concrete inputs. -/
instance {ε α : Type} [DecidableEq ε] [DecidableEq α] :
    DecidableEq (Except ε α) := fun x y =>
  match x, y with
  | .ok a, .ok b =>
      if h : a = b then isTrue (by rw [h])
      else isFalse (fun hc => h (by injection hc))
  | .ok _, .error _ => isFalse (fun hc => Except.noConfusion hc)
  | .error _, .ok _ => isFalse (fun hc => Except.noConfusion hc)
  | .error e, .error f =>
      if h : e = f then isTrue (by rw [h])
      else isFalse (fun hc => h (by injection hc))

/-- A section's key-value mapping (Go `map[string]string`). -/
abbrev KV := List (Str × Str)

/-- The full parse result (Go `map[string]map[string]string`). -/
abbrev SectionTable := List (Str × KV)

/-- Lookup in an association list (Go map read `m[k]` with its `ok` flag). -/
def lookupA {α : Type} (m : List (Str × α)) (k : Str) : Option α :=
  match m with
  | [] => none
  | (a, b) :: rest => if a = k then some b else lookupA rest k

/-- Overwriting insert into an association list (Go map write `m[k] = v`). -/
def updateAssoc {α : Type} (m : List (Str × α)) (k : Str) (v : α) :
    List (Str × α) :=
  match m with
  | [] => [(k, v)]
  | (a, b) :: rest =>
      if a = k then (k, v) :: rest else (a, b) :: updateAssoc rest k v

/-- Go line 16: `const DefaultSectionName = "General"`. -/
def DefaultSectionName : Str := "General".data

/-- The loop state of `parseConfigFile`: the table built so far and the
current section name (the Go local variable `section`). -/
structure ParseState where
  conf : SectionTable
  sect : Str
  deriving DecidableEq, Repr

/-- The body of the scan loop of `parseConfigFile` (Go lines 107-125),
applied to a line that has already had its comment stripped and been
trimmed: skip the line if empty, switch section on a header, store a
key-value pair (creating the section's map if needed), otherwise fail. -/
def processStripped (st : ParseState) (line : Str) : Except GoErr ParseState :=
  if line = [] then .ok st
  else
    match matchSection line with
    | some name => .ok { st with sect := name }
    | none =>
      match matchKeyVal line with
      | some kv =>
          let m := updateAssoc ((lookupA st.conf st.sect).getD []) kv.1 kv.2
          .ok { st with conf := updateAssoc st.conf st.sect m }
      | none => .error (.invalidLine line)

/-- One iteration of the scan loop on a raw line: strip the comment, trim,
then process (Go lines 107-111 feed lines 112-125). -/
def processLine (st : ParseState) (raw : Str) : Except GoErr ParseState :=
  processStripped st (trimSpace (stripComment raw))

/-- The scan loop itself, stopping at the first invalid line.  (The Go
function returns the partially built map together with the error; its only
caller, `lookupSection`, discards the map whenever the error is non-nil,
so the `Except` model is observationally faithful.) -/
def processList (st : ParseState) : List Str → Except GoErr ParseState
  | [] => .ok st
  | l :: rest =>
    match processLine st l with
    | .error e => .error e
    | .ok st' => processList st' rest

/-- The state at Go lines 100-104: current section is the default one, and
the table always starts with an (empty) default section. -/
def initState : ParseState :=
  { conf := [(DefaultSectionName, [])], sect := DefaultSectionName }

/-- Go `parseConfigFile` (lines 92-128) on the backing file's lines.
File-open errors are outside the model: the file is represented by its
content. -/
def parseConfigFile (lines : List Str) : Except GoErr SectionTable :=
  match processList initState lines with
  | .ok st => .ok st.conf
  | .error e => .error e

/-- Go `Config.lookupSection` (lines 63-75): re-parse the whole file and
extract the requested section, or report `no such section`. -/
def lookupSection (lines : List Str) (sect : Str) : Except GoErr KV :=
  match parseConfigFile lines with
  | .error e => .error e
  | .ok conf =>
    match lookupA conf sect with
    | some m => .ok m
    | none => .error (.noSuchSection sect)

/-- Modelled from the spec: the cache core (`congomap.Congomap` from
`gopkg.in/karrick/congomap.v1`, an external dependency whose code is not
part of this repository).  Per spec section 3 and 4.1 it keeps, per
section name, the cached mapping and its insertion timestamp, plus the
configured TTL (`0` = no expiry) and a closed flag.  Timestamps are
integers (Go `time.Time`/`time.Duration` tick counts). -/
structure Congomap where
  store : List (Str × (KV × Int))
  ttl : Int
  closed : Bool
  deriving DecidableEq, Repr

/-- Modelled from the spec: a freshly constructed, empty, open cache with
the given TTL (Go `congomap.NewSyncAtomicMap` at line 44, whose
construction is assumed to succeed). -/
def initCgm (ttl : Int) : Congomap := { store := [], ttl := ttl, closed := false }

/-- Modelled from the spec (section 4.1, `Get`; Go `cgm.LoadStore` at line
80, with `lookupSection` as the configured loader): after `Close` every
call fails with the closed error; a present entry younger than the TTL is
returned without invoking the loader; otherwise the loader runs — on
success the value is cached with a fresh timestamp, on failure nothing is
cached and the error is returned.  Expiry (spec 4.1 step 4): an entry is
expired when `TTL > 0` and `now - inserted ≥ TTL`.  The single-flight
deduplication of concurrent callers has no counterpart in this sequential
model. -/
def loadStore (lines : List Str) (cgm : Congomap) (now : Int) (key : Str) :
    Except GoErr KV × Congomap :=
  if cgm.closed then (.error .closed, cgm)
  else
    match lookupA cgm.store key with
    | some vt =>
        if 0 < cgm.ttl ∧ cgm.ttl ≤ now - vt.2 then
          match lookupSection lines key with
          | .ok m => (.ok m, { cgm with store := updateAssoc cgm.store key (m, now) })
          | .error e => (.error e, cgm)
        else (.ok vt.1, cgm)
    | none =>
        match lookupSection lines key with
        | .ok m => (.ok m, { cgm with store := updateAssoc cgm.store key (m, now) })
        | .error e => (.error e, cgm)

/-- The runtime shape of Go `Config` (lines 18-23): the backing file
(represented by its current content, standing in for `pathname`) and the
cache.  The `ttl` field lives inside the cache model. -/
structure Config where
  fileLines : List Str
  cgm : Congomap
  deriving DecidableEq, Repr

/-- Go `Config.Section` (lines 79-85): delegate to `cgm.LoadStore` and
return its result.  (The Go type assertion `dict.(map[string]string)`
always succeeds because the loader only ever stores such maps.)  `now` is
the time of the call. -/
def Config.Section (c : Config) (now : Int) (name : Str) :
    Except GoErr KV × Config :=
  ((loadStore c.fileLines c.cgm now name).1,
   { c with cgm := (loadStore c.fileLines c.cgm now name).2 })

/-- Go `Config.Close` (lines 88-90), delegating to `cgm.Close`; the cache
is marked closed (modelled from the spec for the congomap side). -/
def Config.Close (c : Config) : Config :=
  { c with cgm := { c.cgm with closed := true } }

/-- The construction-time fields of Go `Config` that the option setters
touch (lines 19-23, before the congomap is attached). -/
structure ConfigInit where
  pathname : Str
  ttl : Int
  deriving DecidableEq, Repr

/-- Go `TTL` (lines 53-61): an option setter that rejects a non-positive
duration and otherwise records it. -/
def TTL (d : Int) : ConfigInit → Except GoErr ConfigInit := fun c =>
  if d ≤ 0 then .error .ttlNotPositive else .ok { c with ttl := d }

/-- The setter loop of `New` (Go lines 34-38): apply each setter in order,
aborting on the first error. -/
def applySetters (c : ConfigInit) :
    List (ConfigInit → Except GoErr ConfigInit) → Except GoErr ConfigInit
  | [] => .ok c
  | f :: fs =>
    match f c with
    | .error e => .error e
    | .ok c' => applySetters c' fs

/-- Go `New` (lines 29-50): start from `ttl = 0`, run the setters, then
build the cache with the configured TTL (Go only passes the congomap TTL
option when `ttl > 0`; `initCgm 0` disables expiry, so passing `c.ttl`
through is equivalent).  Returns the settled fields and the cache. -/
def New (pathname : Str) (setters : List (ConfigInit → Except GoErr ConfigInit)) :
    Except GoErr (ConfigInit × Congomap) :=
  match applySetters { pathname := pathname, ttl := 0 } setters with
  | .error e => .error e
  | .ok c => .ok (c, initCgm c.ttl)

/-- A line on which the scan loop of `parseConfigFile` aborts: after
comment stripping and trimming it is nonempty and matches neither the
section-header regex nor the key-value regex (Go lines 122-124). -/
def isMalformed (l : Str) : Prop :=
  trimSpace (stripComment l) ≠ [] ∧
  matchSection (trimSpace (stripComment l)) = none ∧
  matchKeyVal (trimSpace (stripComment l)) = none

instance (l : Str) : Decidable (isMalformed l) := by
  unfold isMalformed; infer_instance

/-- Sanity check: a simple two-key section parses as expected. -/
theorem sanity_parse_simple : parseConfigFile ["[A]".data, "k1=v1".data, "k2=v2".data] =
    .ok [(DefaultSectionName, []),
         ("A".data, [("k1".data, "v1".data), ("k2".data, "v2".data)])] := by
  decide

/-- Sanity check: with spaces around `=` the stored key keeps the space
before the `=` (see C2). -/
theorem sanity_parse_spaces : parseConfigFile ["k = v ; trailing comment".data] =
    .ok [(DefaultSectionName, [("k ".data, "v".data)])] := by
  decide

/-- Sanity check: a line with an empty value is rejected (see C10). -/
theorem sanity_parse_empty_value : parseConfigFile ["key =".data] =
    .error (.invalidLine "key =".data) := by
  decide

theorem lookupA_update {α : Type} (m : List (Str × α)) (k q : Str) (v : α) :
    lookupA (updateAssoc m k v) q = if q = k then some v else lookupA m q := by
  induction m with
  | nil =>
      simp only [updateAssoc, lookupA]
      by_cases h : k = q
      · rw [if_pos h, if_pos h.symm]
      · rw [if_neg h, if_neg (fun hh => h hh.symm)]
  | cons hd tl ih =>
      obtain ⟨a, b⟩ := hd
      by_cases hak : a = k
      · subst hak
        simp only [updateAssoc, if_pos rfl, lookupA]
        by_cases haq : a = q
        · rw [if_pos haq, if_pos haq.symm]
        · rw [if_neg haq, if_neg (fun hh => haq hh.symm), if_neg haq]
      · simp only [updateAssoc, if_neg hak, lookupA]
        by_cases haq : a = q
        · have hqk : ¬ q = k := fun hh => hak (haq.trans hh)
          rw [if_pos haq, if_neg hqk, if_pos haq]
        · rw [if_neg haq, ih, if_neg haq]

theorem updateAssoc_ne_nil {α : Type} (m : List (Str × α)) (k : Str) (v : α) :
    updateAssoc m k v ≠ [] := by
  cases m with
  | nil => simp [updateAssoc]
  | cons hd tl =>
      obtain ⟨a, b⟩ := hd
      simp only [updateAssoc]
      split <;> simp

theorem processStripped_ok_shape (st : ParseState) (line : Str) (st' : ParseState)
    (h : processStripped st line = .ok st') :
    st'.conf = st.conf ∨
    (st'.sect = st.sect ∧ ∃ k v, st'.conf =
      updateAssoc st.conf st.sect
        (updateAssoc ((lookupA st.conf st.sect).getD []) k v)) := by
  unfold processStripped at h
  by_cases hl : line = []
  · rw [if_pos hl] at h; injection h with h2; subst h2; exact .inl rfl
  · rw [if_neg hl] at h
    cases hsec : matchSection line with
    | some name =>
        simp only [hsec] at h
        injection h with h2; subst h2; exact .inl rfl
    | none =>
        simp only [hsec] at h
        cases hkv : matchKeyVal line with
        | some kv =>
            simp only [hkv] at h
            injection h with h2; subst h2
            exact .inr ⟨rfl, kv.1, kv.2, rfl⟩
        | none => simp only [hkv] at h; cases h

theorem processStripped_sect_stable (st : ParseState) (line : Str)
    (st' : ParseState) (h : processStripped st line = .ok st')
    (hns : matchSection line = none) : st'.sect = st.sect := by
  unfold processStripped at h
  by_cases hl : line = []
  · rw [if_pos hl] at h; injection h with h2; subst h2; rfl
  · rw [if_neg hl] at h
    simp only [hns] at h
    cases hkv : matchKeyVal line with
    | some kv => simp only [hkv] at h; injection h with h2; subst h2; rfl
    | none => simp only [hkv] at h; cases h

theorem processStripped_error_form (st : ParseState) (line : Str) (e : GoErr)
    (h : processStripped st line = .error e) : ∃ b, e = .invalidLine b := by
  unfold processStripped at h
  by_cases hl : line = []
  · rw [if_pos hl] at h; cases h
  · rw [if_neg hl] at h
    cases hsec : matchSection line with
    | some name => simp only [hsec] at h; cases h
    | none =>
        simp only [hsec] at h
        cases hkv : matchKeyVal line with
        | some kv => simp only [hkv] at h; cases h
        | none =>
            simp only [hkv] at h
            injection h with h2; exact ⟨line, h2.symm⟩

theorem processLine_malformed (st : ParseState) (l : Str) (h : isMalformed l) :
    processLine st l = .error (.invalidLine (trimSpace (stripComment l))) := by
  obtain ⟨hne, hsec, hkv⟩ := h
  unfold processLine processStripped
  rw [if_neg hne, hsec, hkv]

theorem processLine_total (st : ParseState) (l : Str) (h : ¬ isMalformed l) :
    ∃ st', processLine st l = .ok st' := by
  unfold processLine processStripped
  split
  · exact ⟨st, rfl⟩
  · rename_i hne
    cases hsec : matchSection (trimSpace (stripComment l)) with
    | some name => exact ⟨_, rfl⟩
    | none =>
        cases hkv : matchKeyVal (trimSpace (stripComment l)) with
        | some kv => exact ⟨_, rfl⟩
        | none => exact absurd ⟨hne, hsec, hkv⟩ h

theorem processList_append (st : ParseState) (xs ys : List Str) :
    processList st (xs ++ ys) =
      match processList st xs with
      | .ok st' => processList st' ys
      | .error e => .error e := by
  induction xs generalizing st with
  | nil => simp [processList]
  | cons a xs ih =>
      simp only [List.cons_append, processList]
      cases processLine st a with
      | error e => rfl
      | ok st' => exact ih st'

theorem processList_inv (P : ParseState → Prop)
    (hP : ∀ st l st', processLine st l = .ok st' → P st → P st') :
    ∀ (ls : List Str) (st st' : ParseState),
      processList st ls = .ok st' → P st → P st' := by
  intro ls
  induction ls with
  | nil =>
      intro st st' h hp
      unfold processList at h
      injection h with h2; subst h2; exact hp
  | cons a ls ih =>
      intro st st' h hp
      unfold processList at h
      cases hl : processLine st a with
      | error e => rw [hl] at h; cases h
      | ok st1 => rw [hl] at h; exact ih st1 st' h (hP st a st1 hl hp)

theorem processList_sect_stable (ls : List Str) (st st' : ParseState)
    (h : processList st ls = .ok st')
    (hns : ∀ l ∈ ls, matchSection (trimSpace (stripComment l)) = none) :
    st'.sect = st.sect := by
  induction ls generalizing st with
  | nil => unfold processList at h; injection h with h2; subst h2; rfl
  | cons a ls ih =>
      unfold processList at h
      cases hl : processLine st a with
      | error e => rw [hl] at h; cases h
      | ok st1 =>
          rw [hl] at h
          have h1 : st1.sect = st.sect :=
            processStripped_sect_stable st _ st1 hl (hns a (List.mem_cons_self a ls))
          have h2 : st'.sect = st1.sect :=
            ih st1 h (fun l hm => hns l (List.mem_cons_of_mem a hm))
          exact h2.trans h1

theorem processList_error_form (ls : List Str) (st : ParseState) (e : GoErr)
    (h : processList st ls = .error e) : ∃ b, e = .invalidLine b := by
  induction ls generalizing st with
  | nil => unfold processList at h; cases h
  | cons a ls ih =>
      unfold processList at h
      cases hl : processLine st a with
      | error e0 =>
          rw [hl] at h; injection h with h2; subst h2
          exact processStripped_error_form st _ _ hl
      | ok st1 => rw [hl] at h; exact ih st1 h

theorem parse_ok_processList (lines : List Str) (tbl : SectionTable)
    (h : parseConfigFile lines = .ok tbl) :
    ∃ st, processList initState lines = .ok st ∧ st.conf = tbl := by
  unfold parseConfigFile at h
  cases hp : processList initState lines with
  | ok st => rw [hp] at h; injection h with h2; exact ⟨st, rfl, h2⟩
  | error e => rw [hp] at h; cases h

theorem processLine_pres_sectionPresent (sec : Str) (st : ParseState) (l : Str)
    (st' : ParseState) (h : processLine st l = .ok st')
    (hp : lookupA st.conf sec ≠ none) : lookupA st'.conf sec ≠ none := by
  cases processStripped_ok_shape st _ st' h with
  | inl he => rw [he]; exact hp
  | inr hr =>
      obtain ⟨-, k, v, he⟩ := hr
      rw [he, lookupA_update]
      split
      · simp
      · exact hp

theorem processLine_pres_keyPresent (sec k : Str) (st st' : ParseState)
    (l : Str) (h : processLine st l = .ok st')
    (hp : ∃ m, lookupA st.conf sec = some m ∧ lookupA m k ≠ none) :
    ∃ m, lookupA st'.conf sec = some m ∧ lookupA m k ≠ none := by
  obtain ⟨m, hm, hk⟩ := hp
  cases processStripped_ok_shape st _ st' h with
  | inl he => exact ⟨m, he ▸ hm, hk⟩
  | inr hr =>
      obtain ⟨-, k2, v2, he⟩ := hr
      by_cases hsec : sec = st.sect
      · subst hsec
        refine ⟨updateAssoc ((lookupA st.conf st.sect).getD []) k2 v2, ?_, ?_⟩
        · rw [he, lookupA_update, if_pos rfl]
        · rw [hm, Option.getD_some, lookupA_update]
          split
          · simp
          · exact hk
      · refine ⟨m, ?_, hk⟩
        rw [he, lookupA_update, if_neg hsec]
        exact hm

theorem processLine_pres_nonDefaultNonempty (st st' : ParseState) (l : Str)
    (h : processLine st l = .ok st')
    (hp : ∀ s m, s ≠ DefaultSectionName → lookupA st.conf s = some m → m ≠ []) :
    ∀ s m, s ≠ DefaultSectionName → lookupA st'.conf s = some m → m ≠ [] := by
  intro s m hs hm
  cases processStripped_ok_shape st _ st' h with
  | inl he => exact hp s m hs (he ▸ hm)
  | inr hr =>
      obtain ⟨-, k2, v2, he⟩ := hr
      rw [he, lookupA_update] at hm
      by_cases hss : s = st.sect
      · rw [if_pos hss] at hm
        injection hm with hm2
        exact hm2 ▸ updateAssoc_ne_nil _ _ _
      · rw [if_neg hss] at hm
        exact hp s m hs hm

theorem processList_sectionPresent (sec : Str) (ls : List Str)
    (st st' : ParseState) (h : processList st ls = .ok st')
    (hp : lookupA st.conf sec ≠ none) : lookupA st'.conf sec ≠ none :=
  processList_inv (fun s => lookupA s.conf sec ≠ none)
    (fun st0 l st1 hl hp0 => processLine_pres_sectionPresent sec st0 l st1 hl hp0)
    ls st st' h hp

theorem processList_keyPresent (sec k : Str) (ls : List Str)
    (st st' : ParseState) (h : processList st ls = .ok st')
    (hp : ∃ m, lookupA st.conf sec = some m ∧ lookupA m k ≠ none) :
    ∃ m, lookupA st'.conf sec = some m ∧ lookupA m k ≠ none :=
  processList_inv (fun s => ∃ m, lookupA s.conf sec = some m ∧ lookupA m k ≠ none)
    (fun st0 l st1 hl hp0 => processLine_pres_keyPresent sec k st0 st1 l hl hp0)
    ls st st' h hp

theorem processList_nonDefaultNonempty (ls : List Str) (st st' : ParseState)
    (h : processList st ls = .ok st')
    (hp : ∀ s m, s ≠ DefaultSectionName → lookupA st.conf s = some m → m ≠ []) :
    ∀ s m, s ≠ DefaultSectionName → lookupA st'.conf s = some m → m ≠ [] :=
  processList_inv
    (fun t => ∀ s m, s ≠ DefaultSectionName → lookupA t.conf s = some m → m ≠ [])
    (fun st0 l st1 hl hp0 => processLine_pres_nonDefaultNonempty st0 st1 l hl hp0)
    ls st st' h hp

theorem dropWhile_head_false {p : Char → Bool} {l : Str} {c : Char} {cs : Str}
    (h : l.dropWhile p = c :: cs) : p c = false := by
  induction l with
  | nil => simp [List.dropWhile_nil] at h
  | cons a t ih =>
      rw [List.dropWhile_cons] at h
      by_cases hpa : p a = true
      · rw [if_pos hpa] at h; exact ih h
      · rw [if_neg hpa] at h
        injection h with h1 h2
        subst h1
        simp at hpa
        exact hpa

theorem dropWhile_nil_all {p : Char → Bool} {l : Str} (h : l.dropWhile p = []) :
    ∀ c ∈ l, p c = true := by
  induction l with
  | nil => intro c hc; cases hc
  | cons a t ih =>
      rw [List.dropWhile_cons] at h
      by_cases hpa : p a = true
      · rw [if_pos hpa] at h
        intro c hc
        cases List.mem_cons.mp hc with
        | inl he => exact he ▸ hpa
        | inr ht => exact ih h c ht
      · rw [if_neg hpa] at h; cases h

theorem reIsSpace_goIsSpace {c : Char} (h : reIsSpace c = true) :
    goIsSpace c = true := by
  unfold reIsSpace at h
  simp only [Bool.or_eq_true, decide_eq_true_eq] at h
  rcases h with ((((h|h)|h)|h)|h) <;> subst h <;> decide

theorem trimmed_suffix_dropWhile_ne_nil (x : Str) (n : Nat)
    (hne : (trimSpace x).drop n ≠ []) :
    ((trimSpace x).drop n).dropWhile reIsSpace ≠ [] := by
  intro hall
  have hws : ∀ c ∈ (trimSpace x).drop n, reIsSpace c = true := dropWhile_nil_all hall
  obtain ⟨c0, t0, hrev⟩ : ∃ c0 t0, ((trimSpace x).drop n).reverse = c0 :: t0 := by
    cases hq : ((trimSpace x).drop n).reverse with
    | nil =>
        exact absurd (by simpa using congrArg List.reverse hq) hne
    | cons c0 t0 => exact ⟨c0, t0, rfl⟩
  have hc0mem : c0 ∈ (trimSpace x).drop n := by
    rw [← List.mem_reverse, hrev]
    exact List.mem_cons_self _ _
  have hc0go : goIsSpace c0 = true := reIsSpace_goIsSpace (hws c0 hc0mem)
  have hsrev : (trimSpace x).reverse = c0 :: (t0 ++ ((trimSpace x).take n).reverse) := by
    conv_lhs => rw [← List.take_append_drop n (trimSpace x)]
    rw [List.reverse_append, hrev]
    rfl
  have hdw : (trimSpace x).reverse = ((x.dropWhile goIsSpace).reverse).dropWhile goIsSpace := by
    unfold trimSpace
    rw [List.reverse_reverse]
  have hfalse : goIsSpace c0 = false := dropWhile_head_false (by rw [← hdw]; exact hsrev)
  rw [hc0go] at hfalse
  cases hfalse

theorem processList_find_malformed (ls : List Str) :
    ∀ st : ParseState, (∃ l ∈ ls, isMalformed l) →
      ∃ l ∈ ls, isMalformed l ∧
        processList st ls = .error (.invalidLine (trimSpace (stripComment l))) := by
  induction ls with
  | nil => intro st h; obtain ⟨l, hl, _⟩ := h; cases hl
  | cons a ls ih =>
      intro st h
      by_cases ha : isMalformed a
      · refine ⟨a, List.mem_cons_self a ls, ha, ?_⟩
        unfold processList
        rw [processLine_malformed st a ha]
      · obtain ⟨l, hl, hm⟩ := h
        have hlt : l ∈ ls := by
          cases List.mem_cons.mp hl with
          | inl he => exact absurd (he ▸ hm) ha
          | inr h2 => exact h2
        obtain ⟨st1, hst1⟩ := processLine_total st a ha
        obtain ⟨l2, hl2, hm2, herr⟩ := ih st1 ⟨l, hlt, hm⟩
        refine ⟨l2, List.mem_cons_of_mem a hl2, hm2, ?_⟩
        unfold processList
        rw [hst1]
        exact herr

theorem lookupSection_ok (lines : List Str) (tbl : SectionTable) (name : Str)
    (m : KV) (hp : parseConfigFile lines = .ok tbl)
    (hl : lookupA tbl name = some m) : lookupSection lines name = .ok m := by
  unfold lookupSection
  simp only [hp, hl]

theorem lookupSection_absent (lines : List Str) (tbl : SectionTable)
    (name : Str) (hp : parseConfigFile lines = .ok tbl)
    (hl : lookupA tbl name = none) :
    lookupSection lines name = .error (.noSuchSection name) := by
  unfold lookupSection
  simp only [hp, hl]

theorem lookupSection_parse_error (lines : List Str) (name : Str) (e : GoErr)
    (hp : parseConfigFile lines = .error e) :
    lookupSection lines name = .error e := by
  unfold lookupSection
  simp only [hp]

theorem loadStore_closed (lines : List Str) (cgm : Congomap) (now : Int)
    (key : Str) (hc : cgm.closed = true) :
    loadStore lines cgm now key = (.error .closed, cgm) := by
  unfold loadStore
  simp [hc]

theorem loadStore_miss_ok (lines : List Str) (cgm : Congomap) (now : Int)
    (key : Str) (m : KV) (hc : cgm.closed = false)
    (hmiss : lookupA cgm.store key = none)
    (hs : lookupSection lines key = .ok m) :
    loadStore lines cgm now key =
      (.ok m, { cgm with store := updateAssoc cgm.store key (m, now) }) := by
  unfold loadStore
  simp [hc, hmiss, hs]

theorem loadStore_miss_error (lines : List Str) (cgm : Congomap) (now : Int)
    (key : Str) (e : GoErr) (hc : cgm.closed = false)
    (hmiss : lookupA cgm.store key = none)
    (hs : lookupSection lines key = .error e) :
    loadStore lines cgm now key = (.error e, cgm) := by
  unfold loadStore
  simp [hc, hmiss, hs]

/-- C1: for every well-formed configuration file — one whose parse succeeds
with a Section Table mapping section `A` to the key-value mapping `m`, as a
file with sections A and B where A holds exactly the pairs k1=v1 and k2=v2
does — `Section("A")` on a freshly constructed Config returns exactly `m`
and no error. -/
theorem C1_section_roundtrip (lines : List Str) (tbl : SectionTable)
    (A : Str) (m : KV) (ttl now : Int)
    (hparse : parseConfigFile lines = .ok tbl)
    (hA : lookupA tbl A = some m) :
    (Config.Section { fileLines := lines, cgm := initCgm ttl } now A).1 =
      .ok m := by
  unfold Config.Section
  rw [loadStore_miss_ok lines (initCgm ttl) now A m rfl rfl
        (lookupSection_ok lines tbl A m hparse hA)]

/-- C1 witness: a concrete file with sections A and B, where A holds exactly
k1=v1 and k2=v2, on which `Section("A")` returns exactly that mapping. -/
theorem C1_section_roundtrip_witness :
    (Config.Section
        { fileLines := ["[A]".data, "k1=v1".data, "k2=v2".data,
                        "[B]".data, "z=w".data],
          cgm := initCgm 0 } 0 "A".data).1 =
      .ok [("k1".data, "v1".data), ("k2".data, "v2".data)] :=
  C1_section_roundtrip
    ["[A]".data, "k1=v1".data, "k2=v2".data, "[B]".data, "z=w".data]
    [(DefaultSectionName, []),
     ("A".data, [("k1".data, "v1".data), ("k2".data, "v2".data)]),
     ("B".data, [("z".data, "w".data)])]
    "A".data [("k1".data, "v1".data), ("k2".data, "v2".data)] 0 0
    (by decide) (by decide)

/-- C7: constructing a Config with the `TTL d` option fails with the
validation error (and yields no Config) for every `d ≤ 0`, and succeeds for
every `d > 0`, recording `d` as the TTL. -/
theorem C7_ttl_validation (p : Str) (d : Int) :
    (d ≤ 0 → New p [TTL d] = .error .ttlNotPositive) ∧
    (0 < d → New p [TTL d] = .ok ({ pathname := p, ttl := d }, initCgm d)) := by
  constructor
  · intro h
    simp only [New, applySetters, TTL, if_pos h]
  · intro h
    simp only [New, applySetters, TTL, if_neg (not_le.mpr h)]

/-- C7 witness: `TTL (-5)` makes construction fail with the validation
error; `TTL 7` succeeds and sets the TTL to 7. -/
theorem C7_ttl_validation_witness :
    New "config.ini".data [TTL (-5)] = .error .ttlNotPositive ∧
    New "config.ini".data [TTL 7] =
      .ok ({ pathname := "config.ini".data, ttl := 7 }, initCgm 7) :=
  ⟨(C7_ttl_validation "config.ini".data (-5)).1 (by decide),
   (C7_ttl_validation "config.ini".data 7).2 (by decide)⟩

/-- C3: key-value lines before the first `[section]` header land in the
well-known default section ("General"), and the default section is present
in the Section Table of every successfully parsed file, even when empty. -/
theorem C3_default_section (lines : List Str) (tbl : SectionTable)
    (hparse : parseConfigFile lines = .ok tbl) :
    (∃ m, lookupA tbl DefaultSectionName = some m) ∧
    (∀ pre raw post k v,
      lines = pre ++ raw :: post →
      (∀ l ∈ pre, matchSection (trimSpace (stripComment l)) = none) →
      matchSection (trimSpace (stripComment raw)) = none →
      matchKeyVal (trimSpace (stripComment raw)) = some (k, v) →
      ∃ m, lookupA tbl DefaultSectionName = some m ∧ lookupA m k ≠ none) := by
  obtain ⟨stF, hF, hconf⟩ := parse_ok_processList lines tbl hparse
  constructor
  · have hne : lookupA stF.conf DefaultSectionName ≠ none :=
      processList_sectionPresent DefaultSectionName lines initState stF hF
        (by decide)
    exact Option.ne_none_iff_exists'.mp (hconf ▸ hne)
  · intro pre raw post k v hsplit hprehdr hnosec hkv
    subst hsplit
    rw [processList_append] at hF
    cases hpre2 : processList initState pre with
    | error e => rw [hpre2] at hF; cases hF
    | ok st1 =>
        rw [hpre2] at hF
        have hsect : st1.sect = DefaultSectionName :=
          (processList_sect_stable pre initState st1 hpre2 hprehdr).trans rfl
        unfold processList at hF
        cases hraw : processLine st1 raw with
        | error e => rw [hraw] at hF; cases hF
        | ok st2 =>
            rw [hraw] at hF
            have hcomp : processLine st1 raw = .ok { st1 with conf := updateAssoc st1.conf st1.sect (updateAssoc ((lookupA st1.conf st1.sect).getD []) k v) } := by
              unfold processLine processStripped
              have hne2 : trimSpace (stripComment raw) ≠ [] := by
                intro hnil
                rw [hnil] at hkv
                simp [matchKeyVal] at hkv
              rw [if_neg hne2, hnosec, hkv]
            rw [hcomp] at hraw
            injection hraw with hst2
            have hpres : ∃ m, lookupA st2.conf DefaultSectionName = some m ∧
                lookupA m k ≠ none := by
              rw [← hst2]
              refine ⟨updateAssoc ((lookupA st1.conf st1.sect).getD []) k v,
                ?_, ?_⟩
              · show lookupA (updateAssoc st1.conf st1.sect _)
                    DefaultSectionName = _
                rw [lookupA_update, hsect, if_pos rfl]
              · rw [lookupA_update, if_pos rfl]
                simp
            obtain ⟨m3, hm3, hk3⟩ :=
              processList_keyPresent DefaultSectionName k post st2 stF hF hpres
            exact ⟨m3, hconf ▸ hm3, hk3⟩

/-- C3 witness: in the file `x = 1`, `[A]`, `y = 2` the pre-header pair
lands under the default section (its key is `x␣` — the regex keeps the
space before `=` — see C2); in the file `[A]`, `k=v` the default section
is present yet empty. -/
theorem C3_default_section_witness :
    (∃ m, lookupA
        [(DefaultSectionName, [("x ".data, "1".data)]),
         ("A".data, [("y ".data, "2".data)])] DefaultSectionName = some m ∧
        lookupA m "x ".data ≠ none) ∧
    (∃ m, lookupA [(DefaultSectionName, []), ("A".data, [("k".data, "v".data)])]
        DefaultSectionName = some m) :=
  ⟨(C3_default_section ["x = 1".data, "[A]".data, "y = 2".data]
      [(DefaultSectionName, [("x ".data, "1".data)]),
       ("A".data, [("y ".data, "2".data)])] (by decide)).2
      [] "x = 1".data ["[A]".data, "y = 2".data] "x ".data "1".data
      rfl (by decide) (by decide) (by decide),
   (C3_default_section ["[A]".data, "k=v".data]
      [(DefaultSectionName, []), ("A".data, [("k".data, "v".data)])]
      (by decide)).1⟩

/-- C9: a `[name]` header alone never creates an entry in the Section
Table — every non-default entry of a successfully parsed table is
nonempty — so when `name` is absent from the table, `Section(name)` on a
fresh Config returns the not-found error; only the default section exists
unconditionally. -/
theorem C9_header_alone_no_entry (lines : List Str) (tbl : SectionTable)
    (name : Str) (ttl now : Int)
    (hparse : parseConfigFile lines = .ok tbl)
    (hnd : name ≠ DefaultSectionName) :
    (∀ m, lookupA tbl name = some m → m ≠ []) ∧
    (lookupA tbl name = none →
      (Config.Section { fileLines := lines, cgm := initCgm ttl } now name).1 =
        .error (.noSuchSection name)) := by
  constructor
  · intro m hm
    obtain ⟨stF, hF, hconf⟩ := parse_ok_processList lines tbl hparse
    have hini : ∀ s mm, s ≠ DefaultSectionName →
        lookupA initState.conf s = some mm → mm ≠ [] := by
      intro s mm hs hmm
      simp only [initState, lookupA] at hmm
      rw [if_neg (fun hh => hs hh.symm)] at hmm
      cases hmm
    exact processList_nonDefaultNonempty lines initState stF hF hini
      name m hnd (hconf ▸ hm)
  · intro habs
    unfold Config.Section
    rw [loadStore_miss_error lines (initCgm ttl) now name _ rfl rfl
          (lookupSection_absent lines tbl name hparse habs)]

/-- C9 witness: in the file `[A]`, `[B]`, `k=v` the header `[A]` is
followed by no key-value line, so the table has no entry `A` and
`Section("A")` reports `no such section`. -/
theorem C9_header_alone_no_entry_witness :
    (Config.Section
        { fileLines := ["[A]".data, "[B]".data, "k=v".data],
          cgm := initCgm 0 } 0 "A".data).1 =
      .error (.noSuchSection "A".data) :=
  (C9_header_alone_no_entry ["[A]".data, "[B]".data, "k=v".data]
      [(DefaultSectionName, []), ("B".data, [("k".data, "v".data)])]
      "A".data 0 0 (by decide) (by decide)).2 (by decide)

/-- C10: a line whose value part is empty after comment stripping and
trimming — the stripped, trimmed line is some `a` followed by the first
`=` with nothing after it, as `key =` or `key = ; only a comment`
produce — makes the parse of any file containing it fail with an
invalid-line error instead of storing the key with an empty value. -/
theorem C10_empty_value_rejected (pre post : List Str) (raw a : Str)
    (hsplit : trimSpace (stripComment raw) = a ++ ['='])
    (hnoeq : ∀ c ∈ a, c ≠ '=') :
    ∃ bad, parseConfigFile (pre ++ raw :: post) =
      .error (.invalidLine bad) := by
  have hsec : matchSection (a ++ ['=']) = none := by
    cases a with
    | nil => decide
    | cons c0 a2 =>
        have hno : ¬ (c0 = '[' ∧ (a2 ++ ['=']).getLast? = some ']' ∧
            (a2 ++ ['=']).dropLast ≠ [] ∧
            (a2 ++ ['=']).dropLast.contains ']' = false) := by
          rintro ⟨h1, h2, h3, h4⟩
          rw [List.getLast?_concat] at h2
          injection h2 with h5
          exact absurd h5 (by decide)
        show matchSection (c0 :: (a2 ++ ['='])) = none
        simp only [matchSection]
        rw [if_neg hno]
  have hkv : matchKeyVal (a ++ ['=']) = none := by
    have htake : (a ++ ['=']).takeWhile (fun c => c != '=') = a := by
      rw [List.takeWhile_append_of_pos (fun c hc => by
            simpa using hnoeq c hc)]
      simp
    by_cases ha : a = []
    · subst ha; decide
    · simp only [matchKeyVal]
      rw [htake, if_neg ha]
      have hlen : ¬ (a.length = (a ++ ['='] : Str).length) := by simp
      rw [if_neg hlen]
      have hdrop : (a ++ ['='] : Str).drop (a.length + 1) = [] := by
        have hl : (a ++ ['='] : Str).length = a.length + 1 := by simp
        rw [← hl, List.drop_length]
      rw [hdrop]
      rfl
  have hraw : ∀ st, processLine st raw = .error (.invalidLine (a ++ ['='])) := by
    intro st
    unfold processLine processStripped
    rw [hsplit]
    rw [if_neg (by simp : ¬ (a ++ ['='] : Str) = [])]
    simp only [hsec, hkv]
  unfold parseConfigFile
  rw [processList_append]
  cases hpre2 : processList initState pre with
  | error e =>
      obtain ⟨b, hb⟩ := processList_error_form pre initState e hpre2
      refine ⟨b, ?_⟩
      simp only [hpre2, hb]
  | ok st1 =>
      refine ⟨a ++ ['='], ?_⟩
      simp only [hpre2, processList, hraw st1]

/-- C10 witness: both `key =` and `key = ; only a comment` make the parse
fail with an invalid-line error. -/
theorem C10_empty_value_rejected_witness :
    (∃ bad, parseConfigFile (["[A]".data] ++ "key =".data :: []) =
      .error (.invalidLine bad)) ∧
    (∃ bad, parseConfigFile ([] ++ "key = ; only a comment".data :: []) =
      .error (.invalidLine bad)) :=
  ⟨C10_empty_value_rejected ["[A]".data] [] "key =".data "key ".data
      (by decide) (by decide),
   C10_empty_value_rejected [] [] "key = ; only a comment".data "key ".data
      (by decide) (by decide)⟩

/-- C4: when the file contains a malformed line, every `Section(name)` call
that reaches the loader — any name, shown for any open cache state with no
entry for that name, in particular a fresh one — fails with a parse error
identifying an offending line, and the cache is left exactly as it was: no
section mapping from the file is returned or cached. -/
theorem C4_malformed_aborts_all (lines : List Str) (g : Congomap)
    (t0 : Int) (name : Str) (hc : g.closed = false)
    (hmiss : lookupA g.store name = none)
    (hmal : ∃ l ∈ lines, isMalformed l) :
    ∃ l ∈ lines, isMalformed l ∧
      Config.Section { fileLines := lines, cgm := g } t0 name =
        (.error (.invalidLine (trimSpace (stripComment l))),
         { fileLines := lines, cgm := g }) := by
  obtain ⟨l, hl, hm, herr⟩ := processList_find_malformed lines initState hmal
  refine ⟨l, hl, hm, ?_⟩
  have hparse : parseConfigFile lines =
      .error (.invalidLine (trimSpace (stripComment l))) := by
    unfold parseConfigFile
    rw [herr]
  unfold Config.Section
  rw [loadStore_miss_error lines g t0 name _ hc hmiss
        (lookupSection_parse_error lines name _ hparse)]

/-- C4 witness: the file `[A]`, `k=v`, `not a valid line` makes
`Section("A")` fail with the invalid-line error naming the offending line,
leaving the fresh cache empty. -/
theorem C4_malformed_aborts_all_witness :
    ∃ l ∈ (["[A]".data, "k=v".data, "not a valid line".data] : List Str),
      isMalformed l ∧
      Config.Section
          { fileLines := ["[A]".data, "k=v".data, "not a valid line".data],
            cgm := initCgm 0 } 0 "A".data =
        (.error (.invalidLine (trimSpace (stripComment l))),
         { fileLines := ["[A]".data, "k=v".data, "not a valid line".data],
           cgm := initCgm 0 }) :=
  C4_malformed_aborts_all
    ["[A]".data, "k=v".data, "not a valid line".data] (initCgm 0) 0 "A".data
    rfl rfl ⟨"not a valid line".data, by decide, by decide⟩

/-- C6: when `name` is absent from the parsed Section Table, `Section(name)`
returns the not-found error and leaves the cache exactly as it was — other
sections' cached values are untouched and the failure is not cached — and
the next call for the same name re-attempts the full load: once the file
content yields a table containing `name`, the same cache returns it. -/
theorem C6_unknown_section_not_cached (lines : List Str) (tbl : SectionTable)
    (g : Congomap) (now : Int) (name : Str)
    (hc : g.closed = false) (hmiss : lookupA g.store name = none)
    (hparse : parseConfigFile lines = .ok tbl)
    (habs : lookupA tbl name = none) :
    Config.Section { fileLines := lines, cgm := g } now name =
      (.error (.noSuchSection name), { fileLines := lines, cgm := g }) ∧
    (∀ lines₂ tbl₂ m₂ now₂, parseConfigFile lines₂ = .ok tbl₂ →
      lookupA tbl₂ name = some m₂ →
      (Config.Section { fileLines := lines₂, cgm := g } now₂ name).1 =
        .ok m₂) := by
  constructor
  · unfold Config.Section
    rw [loadStore_miss_error lines g now name _ hc hmiss
          (lookupSection_absent lines tbl name hparse habs)]
  · intro lines₂ tbl₂ m₂ now₂ hp₂ hl₂
    unfold Config.Section
    rw [loadStore_miss_ok lines₂ g now₂ name m₂ hc hmiss
          (lookupSection_ok lines₂ tbl₂ name m₂ hp₂ hl₂)]

/-- C6 witness: `Section("DoesNotExist")` on the file `[A]`, `k=v` returns
the not-found error with the cache unchanged, and the same cache then
serves the section once the file contains it. -/
theorem C6_unknown_section_not_cached_witness :
    Config.Section { fileLines := ["[A]".data, "k=v".data], cgm := initCgm 0 }
        0 "DoesNotExist".data =
      (.error (.noSuchSection "DoesNotExist".data),
       { fileLines := ["[A]".data, "k=v".data], cgm := initCgm 0 }) ∧
    (Config.Section
        { fileLines := ["[DoesNotExist]".data, "a=b".data], cgm := initCgm 0 }
        5 "DoesNotExist".data).1 = .ok [("a".data, "b".data)] :=
  ⟨(C6_unknown_section_not_cached ["[A]".data, "k=v".data]
      [(DefaultSectionName, []), ("A".data, [("k".data, "v".data)])]
      (initCgm 0) 0 "DoesNotExist".data rfl rfl (by decide) (by decide)).1,
   (C6_unknown_section_not_cached ["[A]".data, "k=v".data]
      [(DefaultSectionName, []), ("A".data, [("k".data, "v".data)])]
      (initCgm 0) 0 "DoesNotExist".data rfl rfl (by decide) (by decide)).2
     ["[DoesNotExist]".data, "a=b".data]
     [(DefaultSectionName, []), ("DoesNotExist".data, [("a".data, "b".data)])]
     [("a".data, "b".data)] 5 (by decide) (by decide)⟩

/-- C8: after `Close()` every subsequent `Section` call fails with the
closed error (and the state stays closed), for every Config, every call
time and every section name. -/
theorem C8_closed_section_fails (c : Config) (now : Int) (name : Str) :
    Config.Section (Config.Close c) now name =
      (.error .closed, Config.Close c) := by
  have h := loadStore_closed (Config.Close c).fileLines (Config.Close c).cgm
    now name rfl
  unfold Config.Section
  rw [h]

theorem matchKeyVal_trim_eq (x : Str) (k v : Str)
    (h : matchKeyVal (trimSpace x) = some (k, v)) :
    k = (trimSpace x).takeWhile (fun c => c != '=') ∧
    v = ((trimSpace x).drop (k.length + 1)).dropWhile reIsSpace := by
  simp only [matchKeyVal] at h
  split at h
  · cases h
  · split at h
    · cases h
    · split at h
      · rename_i hv0
        cases hre : (trimSpace x).drop
            (((trimSpace x).takeWhile (fun c => c != '=')).length + 1) with
        | nil =>
            rw [hre] at h
            simp at h
        | cons c t =>
            exfalso
            refine trimmed_suffix_dropWhile_ne_nil x
              (((trimSpace x).takeWhile (fun c => c != '=')).length + 1)
              ?_ hv0
            rw [hre]
            simp
      · split at h
        · cases h
        · injection h with h2
          rw [Prod.mk.injEq] at h2
          obtain ⟨hk, hv⟩ := h2
          subst hk
          exact ⟨rfl, hv.symm⟩

/-- C2 counterexample: the line `k = v ; trailing comment` does not store
the key `k` — the parsed default section has no entry for `"k"`; the
stored key is `"k "` (the whitespace before `=` is kept), mapped to `"v"`. -/
theorem C2_key_not_trimmed_counterexample :
    parseConfigFile ["k = v ; trailing comment".data] =
      .ok [(DefaultSectionName, [("k ".data, "v".data)])] ∧
    lookupA [("k ".data, "v".data)] "k".data = none ∧
    lookupA [("k ".data, "v".data)] "k ".data = some "v".data := by
  decide

/-- C2 amended: on every `key = value` line the first `=` is the delimiter;
the stored key is everything before the first `=` — leading whitespace is
removed by the line trim, but the whitespace between the key and the `=` is
kept in the key — and the stored value is everything after the first `=`
with the comment and surrounding whitespace removed; the pair is stored
into the current section, overwriting any prior value for that key. -/
theorem C2_key_value_parsing_amended (st : ParseState) (raw k v : Str)
    (hnosec : matchSection (trimSpace (stripComment raw)) = none)
    (hkv : matchKeyVal (trimSpace (stripComment raw)) = some (k, v)) :
    k = (trimSpace (stripComment raw)).takeWhile (fun c => c != '=') ∧
    v = ((trimSpace (stripComment raw)).drop (k.length + 1)).dropWhile reIsSpace ∧
    processLine st raw = .ok { st with conf := updateAssoc st.conf st.sect (updateAssoc ((lookupA st.conf st.sect).getD []) k v) } ∧
    lookupA (updateAssoc ((lookupA st.conf st.sect).getD []) k v) k = some v := by
  obtain ⟨hk, hv⟩ := matchKeyVal_trim_eq (stripComment raw) k v hkv
  refine ⟨hk, hv, ?_, ?_⟩
  · unfold processLine processStripped
    have hne : trimSpace (stripComment raw) ≠ [] := by
      intro hnil
      rw [hnil] at hkv
      simp [matchKeyVal] at hkv
    rw [if_neg hne, hnosec, hkv]
  · rw [lookupA_update, if_pos rfl]

/-- C2 amended witness: on the line `k = v ; trailing comment` the stored
key is `"k "`, the stored value is `"v"`, and the pair lands in the current
(default) section. -/
theorem C2_key_value_parsing_amended_witness :
    "k ".data = (trimSpace (stripComment "k = v ; trailing comment".data)).takeWhile (fun c => c != '=') ∧
    "v".data = ((trimSpace (stripComment "k = v ; trailing comment".data)).drop ("k ".data.length + 1)).dropWhile reIsSpace ∧
    processLine initState "k = v ; trailing comment".data = .ok { initState with conf := updateAssoc initState.conf initState.sect (updateAssoc ((lookupA initState.conf initState.sect).getD []) "k ".data "v".data) } ∧
    lookupA (updateAssoc ((lookupA initState.conf initState.sect).getD []) "k ".data "v".data) "k ".data = some "v".data :=
  C2_key_value_parsing_amended initState "k = v ; trailing comment".data
    "k ".data "v".data (by decide) (by decide)
